import Mathlib

/-!
# Verification of the adlib controller/brain support library

Shallow embedding of `adlib.cpp` / `adlib.h` (Team 20850W "adlib" support
library for a VEX robot): the controller output ring buffer, the button
edge detector, the controller background task schedule, the brain touch
dispatcher, widget geometry, and the bitmap blit, together with proofs of
the specified properties.
-/

set_option maxRecDepth 8000

namespace Adlib

/-! ## Controller output queue (`adlib.cpp` lines 83-153, `adlib.h` lines 74-88)

The C++ buffer is `char buf[MAX_NUM_OF_MSG][MAX_MSG_LEN]` with
`MAX_NUM_OF_MSG = 8`, `MAX_MSG_LEN = 36`; slot byte 0 is the tag
(`MSG_CLEAR = 1`, `MSG_RUMBLE = 2`, `MSG_TEXT = 3`).  We embed a slot as an
inductive message.  `Msg.undef` stands for a slot whose tag byte has never
been written (its byte is indeterminate in C++; such a slot is never read
on any execution because `print_process` returns early on an empty buffer,
and every non-empty slot was written). -/

/-- Truncation of a C `int` to a signed `char`, as performed by
`char(row)` / `char(col)` in `Controller::print` (two's-complement wrap). -/
def toInt8 (n : Int) : Int := (n + 128) % 256 - 128

/-- One slot of the output buffer.  The payload strings carry the
truncation applied by `vsnprintf(..., MAX_MSG_LEN-4, ...)` (at most 31
characters of text) and `snprintf(..., MAX_MSG_LEN-1, ...)` (at most 34
characters of rumble pattern). -/
inductive Msg where
  | undef : Msg
  | clear : Msg
  | rumble (pattern : String) : Msg
  | text (row col : Int) (message : String) : Msg
deriving DecidableEq

/-- `MAX_NUM_OF_MSG` from `adlib.h`. -/
def MAX_NUM_OF_MSG : Nat := 8

/-- State of the `adlib::Controller` output queue: the slot array and the
two indices `rd_ptr`, `wr_ptr`. -/
structure CState where
  buf : Nat → Msg
  rd_ptr : Nat
  wr_ptr : Nat

/-- Initial state: `rd_ptr = 0`, `wr_ptr = 0`, no slot ever written. -/
def initC : CState := ⟨fun _ => Msg.undef, 0, 0⟩

/-- `Controller::is_buf_full`. -/
def is_buf_full (s : CState) : Bool :=
  (s.wr_ptr + 1) % MAX_NUM_OF_MSG == s.rd_ptr

/-- `Controller::is_buf_empty`. -/
def is_buf_empty (s : CState) : Bool :=
  s.rd_ptr == s.wr_ptr

/-- `Controller::update_wr_ptr`. -/
def update_wr_ptr (s : CState) : CState :=
  { s with wr_ptr := (s.wr_ptr + 1) % MAX_NUM_OF_MSG }

/-- `Controller::update_rd_ptr`. -/
def update_rd_ptr (s : CState) : CState :=
  { s with rd_ptr := (s.rd_ptr + 1) % MAX_NUM_OF_MSG }

/-- `Controller::print(row, col, fmt, ...)`.  The variadic formatting is
performed by the caller in this embedding: `msg` is the already-formatted
text, of which `vsnprintf` stores at most `MAX_MSG_LEN-4-1 = 31`
characters. -/
def print (row col : Int) (msg : String) (s : CState) : CState :=
  if is_buf_full s then s
  else
    let slot := Msg.text (toInt8 row) (toInt8 col) (msg.take 31)
    update_wr_ptr { s with buf := Function.update s.buf s.wr_ptr slot }

/-- `Controller::rumble(rumble_pattern)`; `snprintf` stores at most
`MAX_MSG_LEN-1-1 = 34` characters of the pattern. -/
def rumble (pat : String) (s : CState) : CState :=
  if is_buf_full s then s
  else
    let slot := Msg.rumble (pat.take 34)
    update_wr_ptr { s with buf := Function.update s.buf s.wr_ptr slot }

/-- The 28-space string produced by `vsnprintf` from format `"%28s"` and
argument `""` in `Controller::clear(row)`. -/
def spaces28 : String := String.mk (List.replicate 28 ' ')

/-- `Controller::clear(row)` (default argument `row = -1`): full-buffer
check, then either a `MSG_CLEAR` slot (whole screen) or a call to
`print(row, 0, "%28s", "")` for a single row. -/
def clear (row : Int) (s : CState) : CState :=
  if is_buf_full s then s
  else if row == -1 then
    update_wr_ptr { s with buf := Function.update s.buf s.wr_ptr Msg.clear }
  else
    print row 0 spaces28 s

/-- One command forwarded to the `pros::Controller` output capability by
`Controller::print_process`. -/
inductive OutCmd where
  | clear : OutCmd
  | rumble (pattern : String) : OutCmd
  | print (row col : Int) (message : String) : OutCmd
deriving DecidableEq

/-- `Controller::print_process`: on an empty buffer do nothing; otherwise
interpret the tag at `rd_ptr`, forward the corresponding command, and
advance `rd_ptr`.  (A slot whose tag byte is none of `MSG_CLEAR`,
`MSG_RUMBLE`, `MSG_TEXT` matches no branch: nothing is forwarded but
`update_rd_ptr` still runs; `Msg.undef` models that case.) -/
def print_process (s : CState) : CState × List OutCmd :=
  if is_buf_empty s then (s, [])
  else
    match s.buf s.rd_ptr with
    | Msg.clear => (update_rd_ptr s, [OutCmd.clear])
    | Msg.rumble p => (update_rd_ptr s, [OutCmd.rumble p])
    | Msg.text r c m => (update_rd_ptr s, [OutCmd.print r c m])
    | Msg.undef => (update_rd_ptr s, [])

/-! ### Interleaved producer/consumer runs -/

/-- One call in an interleaved producer/consumer sequence. -/
inductive Op where
  | print (row col : Int) (msg : String) : Op
  | rumble (pat : String) : Op
  | clear (row : Int) : Op
  | drain : Op

/-- Execute one call, returning the new state and the commands forwarded
to the output capability by that call. -/
def stepOp (o : Op) (s : CState) : CState × List OutCmd :=
  match o with
  | Op.print r c m => (print r c m s, [])
  | Op.rumble p => (rumble p s, [])
  | Op.clear r => (clear r s, [])
  | Op.drain => print_process s

/-- Execute a sequence of calls, collecting all forwarded commands in
order. -/
def run (ops : List Op) (s : CState) : CState × List OutCmd :=
  match ops with
  | [] => (s, [])
  | o :: rest =>
    ((run rest (stepOp o s).1).1, (stepOp o s).2 ++ (run rest (stepOp o s).1).2)

/-- The command a producer call stores when it finds the buffer not full
(written as the command `print_process` will later forward for that slot);
`[]` when the call is dropped (buffer full) or is a consumer call. -/
def acceptedCmds (o : Op) (s : CState) : List OutCmd :=
  match o with
  | Op.print r c m =>
    if is_buf_full s then [] else [OutCmd.print (toInt8 r) (toInt8 c) (m.take 31)]
  | Op.rumble p =>
    if is_buf_full s then [] else [OutCmd.rumble (p.take 34)]
  | Op.clear r =>
    if is_buf_full s then []
    else if r == -1 then [OutCmd.clear]
    else [OutCmd.print (toInt8 r) 0 spaces28]
  | Op.drain => []

/-- All commands accepted (stored while the buffer was not full) along a
run, in call order. -/
def acceptedRun (ops : List Op) (s : CState) : List OutCmd :=
  match ops with
  | [] => []
  | o :: rest => acceptedCmds o s ++ acceptedRun rest (stepOp o s).1

/-- Number of consumer calls in a run that found the buffer non-empty. -/
def drainsNE (ops : List Op) (s : CState) : Nat :=
  match ops with
  | [] => 0
  | Op.drain :: rest =>
    (if is_buf_empty s then 0 else 1) + drainsNE rest (print_process s).1
  | o :: rest => drainsNE rest (stepOp o s).1

/-- Number of entries currently stored in the ring buffer (distance from
`rd_ptr` to `wr_ptr`, modulo the capacity). -/
def bufSize (s : CState) : Nat :=
  (s.wr_ptr + MAX_NUM_OF_MSG - s.rd_ptr) % MAX_NUM_OF_MSG

/-- The slot a pending command occupies, as `print_process` reads it. -/
def msgOfCmd : OutCmd → Msg
  | OutCmd.clear => Msg.clear
  | OutCmd.rumble p => Msg.rumble p
  | OutCmd.print r c m => Msg.text r c m

/-- Ring-buffer abstraction invariant: `pending` is the list of commands
stored but not yet drained, laid out at `rd_ptr, rd_ptr+1, ...` modulo the
capacity. -/
def Inv (s : CState) (pending : List OutCmd) : Prop :=
  s.rd_ptr < MAX_NUM_OF_MSG ∧ s.wr_ptr < MAX_NUM_OF_MSG ∧
  pending.length = bufSize s ∧
  ∀ i (h : i < pending.length),
    s.buf ((s.rd_ptr + i) % MAX_NUM_OF_MSG) = msgOfCmd (pending.get ⟨i, h⟩)

lemma inv_initC : Inv initC [] := by
  refine ⟨by norm_num [initC, MAX_NUM_OF_MSG], by norm_num [initC, MAX_NUM_OF_MSG],
    rfl, ?_⟩
  intro i h
  simp at h

/-- Storing one command at `wr_ptr` and advancing the write index extends
the pending list at the back. -/
lemma store_inv {s : CState} {p : List OutCmd} (hinv : Inv s p)
    (hfull : is_buf_full s = false) (c : OutCmd) :
    Inv (update_wr_ptr { s with buf := Function.update s.buf s.wr_ptr (msgOfCmd c) })
      (p ++ [c]) := by
  obtain ⟨hrd, hwr, hlen, hbuf⟩ := hinv
  simp only [MAX_NUM_OF_MSG] at hrd hwr hbuf
  simp only [bufSize, MAX_NUM_OF_MSG] at hlen
  simp only [is_buf_full, MAX_NUM_OF_MSG, beq_eq_false_iff_ne, ne_eq] at hfull
  refine ⟨?_, ?_, ?_, ?_⟩
  · simp only [update_wr_ptr, MAX_NUM_OF_MSG]
    exact hrd
  · simp only [update_wr_ptr, MAX_NUM_OF_MSG]
    omega
  · simp only [update_wr_ptr, bufSize, MAX_NUM_OF_MSG, List.length_append,
      List.length_singleton]
    omega
  · intro i h
    simp only [update_wr_ptr, MAX_NUM_OF_MSG, List.get_eq_getElem]
    simp only [List.length_append, List.length_singleton] at h
    rcases Nat.lt_or_ge i p.length with hi | hi
    · have hne : (s.rd_ptr + i) % 8 ≠ s.wr_ptr := by omega
      rw [Function.update_noteq hne, List.getElem_append_left hi]
      have := hbuf i hi
      simp only [List.get_eq_getElem] at this
      exact this
    · have hieq : i = p.length := by omega
      subst hieq
      have heq : (s.rd_ptr + p.length) % 8 = s.wr_ptr := by omega
      rw [heq, Function.update_same]
      congr 1
      simp

/-- Draining an empty buffer: the pending list is empty and nothing
happens. -/
lemma drain_empty_of_inv {s : CState} {p : List OutCmd} (hinv : Inv s p)
    (hemp : is_buf_empty s = true) : p = [] ∧ print_process s = (s, []) := by
  obtain ⟨hrd, hwr, hlen, _⟩ := hinv
  simp only [is_buf_empty, beq_iff_eq] at hemp
  have hp : p = [] := by
    have : p.length = 0 := by
      simp only [bufSize, MAX_NUM_OF_MSG] at hlen
      simp only [MAX_NUM_OF_MSG] at hrd hwr
      omega
    exact List.length_eq_zero.mp this
  refine ⟨hp, ?_⟩
  simp [print_process, is_buf_empty, hemp]

/-- Draining a non-empty buffer forwards exactly the head of the pending
list and preserves the invariant on its tail. -/
lemma drain_inv_step {s : CState} {p : List OutCmd} (hinv : Inv s p)
    (hemp : is_buf_empty s = false) :
    ∃ c p', p = c :: p' ∧ print_process s = (update_rd_ptr s, [c]) ∧
      Inv (update_rd_ptr s) p' := by
  obtain ⟨hrd, hwr, hlen, hbuf⟩ := hinv
  simp only [MAX_NUM_OF_MSG] at hrd hwr hbuf
  simp only [is_buf_empty, beq_eq_false_iff_ne, ne_eq] at hemp
  simp only [bufSize, MAX_NUM_OF_MSG] at hlen
  have hlen' : 0 < p.length := by omega
  obtain ⟨c, p', hp⟩ := List.exists_cons_of_ne_nil (List.ne_nil_of_length_pos hlen')
  subst hp
  have hhead : s.buf s.rd_ptr = msgOfCmd c := by
    have := hbuf 0 hlen'
    simpa [Nat.mod_eq_of_lt hrd] using this
  refine ⟨c, p', rfl, ?_, ?_, ?_, ?_, ?_⟩
  · have hne : is_buf_empty s = false := by
      simp [is_buf_empty, hemp]
    cases c with
    | clear => simp [print_process, hne, hhead, msgOfCmd]
    | rumble pat => simp [print_process, hne, hhead, msgOfCmd]
    | print r c m => simp [print_process, hne, hhead, msgOfCmd]
  · simp only [update_rd_ptr, MAX_NUM_OF_MSG]
    exact Nat.mod_lt _ (by norm_num)
  · simp only [update_rd_ptr, MAX_NUM_OF_MSG]
    exact hwr
  · simp only [update_rd_ptr, bufSize, MAX_NUM_OF_MSG]
    simp only [List.length_cons] at hlen
    omega
  · intro i h
    simp only [update_rd_ptr, MAX_NUM_OF_MSG, List.get_eq_getElem]
    have hmod : ((s.rd_ptr + 1) % 8 + i) % 8 = (s.rd_ptr + (i + 1)) % 8 := by
      conv_lhs => rw [Nat.mod_add_mod]
      ring_nf
    rw [hmod]
    have h' : i + 1 < (c :: p').length := by
      simp only [List.length_cons]
      omega
    have := hbuf (i + 1) h'
    simp only [List.get_eq_getElem] at this
    rw [this]
    rfl

lemma take_spaces28 : spaces28.take 31 = spaces28 := by decide

/-- Main ring-buffer simulation: along any run from an invariant-holding
state, the previously pending commands followed by the newly accepted ones
are exactly the forwarded commands followed by the still-pending ones, and
each consumer call that finds the buffer non-empty forwards exactly one
command. -/
lemma run_fifo_aux (ops : List Op) : ∀ s p, Inv s p →
    ∃ p', Inv (run ops s).1 p' ∧
      p ++ acceptedRun ops s = (run ops s).2 ++ p' ∧
      (run ops s).2.length = drainsNE ops s := by
  induction ops with
  | nil =>
    intro s p h
    exact ⟨p, h, by simp [run, acceptedRun], by simp [run, drainsNE]⟩
  | cons o rest ih =>
    intro s p h
    cases o with
    | print r c m =>
      cases hfb : is_buf_full s with
      | true =>
        have hstep : print r c m s = s := by simp [print, hfb]
        obtain ⟨p', hinv', heq, hlen⟩ := ih (print r c m s) p (by rw [hstep]; exact h)
        exact ⟨p', hinv',
          by simp [run, stepOp, acceptedRun, acceptedCmds, hfb, heq],
          by simp [run, stepOp, drainsNE, hlen]⟩
      | false =>
        set cmd := OutCmd.print (toInt8 r) (toInt8 c) (m.take 31) with hcmd
        have hstep : print r c m s =
            update_wr_ptr { s with buf := Function.update s.buf s.wr_ptr (msgOfCmd cmd) } := by
          simp [print, hfb, msgOfCmd, hcmd]
        have hinv2 : Inv (print r c m s) (p ++ [cmd]) := by
          rw [hstep]; exact store_inv h hfb cmd
        obtain ⟨p', hinv', heq, hlen⟩ := ih (print r c m s) (p ++ [cmd]) hinv2
        refine ⟨p', hinv', ?_, by simp [run, stepOp, drainsNE, hlen]⟩
        simp only [run, stepOp, acceptedRun, acceptedCmds, hfb]
        simp only [List.append_assoc] at heq
        simpa using heq
    | rumble pat =>
      cases hfb : is_buf_full s with
      | true =>
        have hstep : rumble pat s = s := by simp [rumble, hfb]
        obtain ⟨p', hinv', heq, hlen⟩ := ih (rumble pat s) p (by rw [hstep]; exact h)
        exact ⟨p', hinv',
          by simp [run, stepOp, acceptedRun, acceptedCmds, hfb, heq],
          by simp [run, stepOp, drainsNE, hlen]⟩
      | false =>
        set cmd := OutCmd.rumble (pat.take 34) with hcmd
        have hstep : rumble pat s =
            update_wr_ptr { s with buf := Function.update s.buf s.wr_ptr (msgOfCmd cmd) } := by
          simp [rumble, hfb, msgOfCmd, hcmd]
        have hinv2 : Inv (rumble pat s) (p ++ [cmd]) := by
          rw [hstep]; exact store_inv h hfb cmd
        obtain ⟨p', hinv', heq, hlen⟩ := ih (rumble pat s) (p ++ [cmd]) hinv2
        refine ⟨p', hinv', ?_, by simp [run, stepOp, drainsNE, hlen]⟩
        simp only [run, stepOp, acceptedRun, acceptedCmds, hfb]
        simp only [List.append_assoc] at heq
        simpa using heq
    | clear r =>
      cases hfb : is_buf_full s with
      | true =>
        have hstep : clear r s = s := by simp [clear, hfb]
        obtain ⟨p', hinv', heq, hlen⟩ := ih (clear r s) p (by rw [hstep]; exact h)
        exact ⟨p', hinv',
          by simp [run, stepOp, acceptedRun, acceptedCmds, hfb, heq],
          by simp [run, stepOp, drainsNE, hlen]⟩
      | false =>
        cases hr : (r == -1) with
        | true =>
          set cmd := OutCmd.clear with hcmd
          have hstep : clear r s =
              update_wr_ptr { s with buf := Function.update s.buf s.wr_ptr (msgOfCmd cmd) } := by
            simp [clear, hfb, hr, msgOfCmd, hcmd]
          have hinv2 : Inv (clear r s) (p ++ [cmd]) := by
            rw [hstep]; exact store_inv h hfb cmd
          obtain ⟨p', hinv', heq, hlen⟩ := ih (clear r s) (p ++ [cmd]) hinv2
          refine ⟨p', hinv', ?_, by simp [run, stepOp, drainsNE, hlen]⟩
          simp only [run, stepOp, acceptedRun, acceptedCmds, hfb, hr]
          simp only [List.append_assoc] at heq
          simpa using heq
        | false =>
          set cmd := OutCmd.print (toInt8 r) 0 spaces28 with hcmd
          have hstep : clear r s =
              update_wr_ptr { s with buf := Function.update s.buf s.wr_ptr (msgOfCmd cmd) } := by
            simp only [clear, hfb, hr, Bool.false_eq_true, if_false, print]
            simp [msgOfCmd, hcmd, take_spaces28, toInt8]
          have hinv2 : Inv (clear r s) (p ++ [cmd]) := by
            rw [hstep]; exact store_inv h hfb cmd
          obtain ⟨p', hinv', heq, hlen⟩ := ih (clear r s) (p ++ [cmd]) hinv2
          refine ⟨p', hinv', ?_, by simp [run, stepOp, drainsNE, hlen]⟩
          simp only [run, stepOp, acceptedRun, acceptedCmds, hfb, hr]
          simp only [List.append_assoc] at heq
          simpa using heq
    | drain =>
      cases hem : is_buf_empty s with
      | true =>
        obtain ⟨hp, hpp⟩ := drain_empty_of_inv h hem
        obtain ⟨p', hinv', heq, hlen⟩ := ih (print_process s).1 p (by rw [hpp]; exact h)
        refine ⟨p', ?_, ?_, ?_⟩
        · simpa [run, stepOp] using hinv'
        · simp only [run, stepOp, acceptedRun, acceptedCmds, hpp]
          simpa [hpp] using heq
        · simp [run, stepOp, drainsNE, hem, hpp]
          simpa [hpp] using hlen
      | false =>
        obtain ⟨c, ptl, hp, hpp, hinv2⟩ := drain_inv_step h hem
        subst hp
        obtain ⟨p', hinv', heq, hlen⟩ := ih (print_process s).1 ptl (by rw [hpp]; exact hinv2)
        refine ⟨p', ?_, ?_, ?_⟩
        · simpa [run, stepOp] using hinv'
        · simp only [run, stepOp, acceptedRun, acceptedCmds, hpp]
          simp only [hpp] at heq
          simpa using heq
        · simp only [run, stepOp, drainsNE, hem, hpp]
          simp only [hpp] at hlen
          simp only [List.length_append, List.length_singleton, Bool.false_eq_true,
            if_false]
          omega

/-- `n` consecutive producer calls (`Controller::print(0, 0, "x")`). -/
def pushN : Nat → CState → CState
  | 0, s => s
  | n + 1, s => print 0 0 "x" (pushN n s)

end Adlib

namespace Adlib

/-! ## Claim theorems for the output queue -/

/-- C1 (counterexample): the claim "the number of commands forwarded to
the output capability equals the number of producer calls made while the
buffer was not full" fails for the one-call sequence consisting of a
single `print` and no consumer call: one producer call succeeds while the
buffer is not full, yet no command has been forwarded. -/
theorem fifo_count_counterexample :
    ¬ ((run [Op.print 0 0 "x"] initC).2.length =
       (acceptedRun [Op.print 0 0 "x"] initC).length) := by
  decide

/-- C1 (amended): for every sequence of producer calls (`print`, `rumble`,
`clear`) interleaved with consumer calls (`print_process`), the commands
forwarded to the output capability are exactly a prefix of the commands
accepted (stored while the buffer was not full), in the order those
successful producer calls occurred — strict FIFO with no reordering across
the clear/rumble/text kinds; the number forwarded equals the number of
consumer calls that found the buffer non-empty; and whenever the run ends
with the buffer empty, every accepted command has been forwarded. -/
theorem fifo_delivery_amended (ops : List Op) :
    (∃ p', acceptedRun ops initC = (run ops initC).2 ++ p') ∧
    (run ops initC).2.length = drainsNE ops initC ∧
    (is_buf_empty (run ops initC).1 = true →
      (run ops initC).2 = acceptedRun ops initC) := by
  obtain ⟨p', hinv, heq, hlen⟩ := run_fifo_aux ops initC [] inv_initC
  simp only [List.nil_append] at heq
  refine ⟨⟨p', heq⟩, hlen, ?_⟩
  intro hemp
  have hnil := (drain_empty_of_inv hinv hemp).1
  rw [heq, hnil, List.append_nil]

/-- C1 witness: a concrete run (print, rumble, two drains) ends with the
buffer empty and has forwarded exactly the accepted commands. -/
theorem fifo_delivery_amended_witness :
    (run [Op.print 0 0 "x", Op.rumble ".", Op.drain, Op.drain] initC).2 =
      acceptedRun [Op.print 0 0 "x", Op.rumble ".", Op.drain, Op.drain] initC :=
  (fifo_delivery_amended [Op.print 0 0 "x", Op.rumble ".", Op.drain, Op.drain]).2.2
    (by decide)

/-- C2: the ring-buffer state is full exactly when
`(wr_ptr + 1) % 8 = rd_ptr` (which, for in-range indices, means it holds
exactly `capacity - 1 = 7` entries) and empty exactly when
`rd_ptr = wr_ptr` (zero entries); starting from the empty initial state,
each of 7 consecutive producer calls finds the buffer not full and stores
its command (entry count `k` before the `k+1`-st call), after which the
buffer holds exactly 7 entries, reports full and not empty, and an 8th
producer call is dropped, leaving the state completely unchanged with its
7 entries. -/
theorem ring_capacity_invariant :
    (∀ s : CState, s.rd_ptr < MAX_NUM_OF_MSG → s.wr_ptr < MAX_NUM_OF_MSG →
      ((is_buf_full s = true ↔ (s.wr_ptr + 1) % MAX_NUM_OF_MSG = s.rd_ptr) ∧
       (is_buf_empty s = true ↔ s.rd_ptr = s.wr_ptr) ∧
       (is_buf_full s = true ↔ bufSize s = MAX_NUM_OF_MSG - 1) ∧
       (is_buf_empty s = true ↔ bufSize s = 0))) ∧
    (∀ k, k < 7 →
      (is_buf_full (pushN k initC) = false ∧ bufSize (pushN k initC) = k)) ∧
    (bufSize (pushN 7 initC) = 7 ∧ is_buf_full (pushN 7 initC) = true ∧
      is_buf_empty (pushN 7 initC) = false) ∧
    pushN 8 initC = pushN 7 initC := by
  refine ⟨?_, by decide, by decide, ?_⟩
  · intro s hrd hwr
    simp only [MAX_NUM_OF_MSG] at hrd hwr
    simp only [is_buf_full, is_buf_empty, bufSize, MAX_NUM_OF_MSG, beq_iff_eq]
    refine ⟨trivial, trivial, ?_, ?_⟩ <;> constructor <;> intro h <;> omega
  · have hfull : is_buf_full (pushN 7 initC) = true := by decide
    show print 0 0 "x" (pushN 7 initC) = pushN 7 initC
    simp [print, hfull]

/-- C2 witness: the invariant equivalences instantiated at the initial
state, and the bounded quantifier at `k = 3`. -/
theorem ring_capacity_invariant_witness :
    ((is_buf_full initC = true ↔ (initC.wr_ptr + 1) % MAX_NUM_OF_MSG = initC.rd_ptr) ∧
     (is_buf_empty initC = true ↔ initC.rd_ptr = initC.wr_ptr) ∧
     (is_buf_full initC = true ↔ bufSize initC = MAX_NUM_OF_MSG - 1) ∧
     (is_buf_empty initC = true ↔ bufSize initC = 0)) ∧
    (is_buf_full (pushN 3 initC) = false ∧ bufSize (pushN 3 initC) = 3) :=
  ⟨ring_capacity_invariant.1 initC (by decide) (by decide),
   ring_capacity_invariant.2.1 3 (by decide)⟩

/-- C5: for every row `r ≥ 0`, `Controller::clear(r)` is observationally
equivalent to `Controller::print(r, 0, "%28s", "")` — as functions on the
whole queue state — and, when the buffer is not full, the slot it stores
is a `MSG_TEXT` command with the 28-space payload at column `0` and the
row byte `char(r)` (equal to `r` for every physical row, `0 ≤ r ≤ 127`),
never a `MSG_CLEAR` command; `Controller::clear(-1)` (the no-argument
form) stores a `MSG_CLEAR` command instead. -/
theorem clear_row_is_print_blanks :
    (∀ r : Int, 0 ≤ r → ∀ s : CState, clear r s = print r 0 spaces28 s) ∧
    (∀ r : Int, 0 ≤ r → ∀ s : CState, is_buf_full s = false →
       (clear r s).buf s.wr_ptr = Msg.text (toInt8 r) 0 spaces28 ∧
       (clear r s).wr_ptr = (s.wr_ptr + 1) % MAX_NUM_OF_MSG) ∧
    (∀ r : Int, 0 ≤ r → r ≤ 127 → toInt8 r = r) ∧
    (∀ s : CState, is_buf_full s = false →
       (clear (-1) s).buf s.wr_ptr = Msg.clear ∧
       (clear (-1) s).wr_ptr = (s.wr_ptr + 1) % MAX_NUM_OF_MSG) ∧
    spaces28.data = List.replicate 28 ' ' := by
  have hne : ∀ r : Int, 0 ≤ r → (r == -1) = false := by
    intro r hr
    simp only [beq_eq_false_iff_ne, ne_eq]
    omega
  refine ⟨?_, ?_, ?_, ?_, rfl⟩
  · intro r hr s
    by_cases hf : is_buf_full s = true
    · simp [clear, print, hf]
    · simp only [Bool.not_eq_true] at hf
      simp [clear, hf, hne r hr]
  · intro r hr s hf
    have hz : toInt8 0 = 0 := by decide
    simp [clear, print, hf, hne r hr, update_wr_ptr, Function.update_same,
      take_spaces28, hz]
  · intro r h0 h127
    simp only [toInt8]
    omega
  · intro s hf
    simp [clear, hf, update_wr_ptr, Function.update_same]

/-- C5 witness: clearing row 3 on the empty queue behaves exactly like
printing 28 spaces at column 0 of row 3, and stores the corresponding
`MSG_TEXT` slot; clearing with `row = -1` stores a `MSG_CLEAR` slot. -/
theorem clear_row_is_print_blanks_witness :
    clear 3 initC = print 3 0 spaces28 initC ∧
    (clear 3 initC).buf initC.wr_ptr = Msg.text (toInt8 3) 0 spaces28 ∧
    toInt8 3 = 3 ∧
    (clear (-1) initC).buf initC.wr_ptr = Msg.clear :=
  ⟨clear_row_is_print_blanks.1 3 (by decide) initC,
   (clear_row_is_print_blanks.2.1 3 (by decide) initC (by decide)).1,
   clear_row_is_print_blanks.2.2.1 3 (by decide) (by decide),
   (clear_row_is_print_blanks.2.2.2.1 initC (by decide)).1⟩

/-! ## Button edge detector (`adlib.cpp` lines 64-81)

`Controller::button_process` iterates over the twelve `ButtonStruct`
entries; per entry it samples the level and compares with `last_state`.
We embed the per-button body; `has_press` / `has_release` model whether a
callback is registered (`on_press != nullptr`). -/

/-- One `ButtonStruct`: the last observed level and whether press/release
callbacks are registered. -/
structure BtnState where
  last_state : Bool
  has_press : Bool
  has_release : Bool
deriving DecidableEq

/-- A callback invocation. -/
inductive BtnEv where
  | press : BtnEv
  | release : BtnEv
deriving DecidableEq

/-- The body of `Controller::button_process` for one button and one
sampled level: on a rising edge invoke the press callback if registered
and store the new level; on a falling edge invoke the release callback if
registered and store the new level; otherwise do nothing. -/
def button_process1 (b : BtnState) (level : Bool) : BtnState × List BtnEv :=
  if level && !b.last_state then
    ({ b with last_state := level }, if b.has_press then [BtnEv.press] else [])
  else if !level && b.last_state then
    ({ b with last_state := level }, if b.has_release then [BtnEv.release] else [])
  else (b, [])

/-- Poll one button over a sequence of sampled levels, returning the list
of callback invocations of each sample. -/
def runBtn (b : BtnState) (levels : List Bool) : List (List BtnEv) :=
  match levels with
  | [] => []
  | l :: ls => (button_process1 b l).2 :: runBtn (button_process1 b l).1 ls

/-- Total number of invocations of one callback over a polled run. -/
def countEv (evss : List (List BtnEv)) (e : BtnEv) : Nat :=
  evss.flatten.count e

/-- Number of `false → true` transitions of the sampled level relative to
a starting level. -/
def risingEdges (last : Bool) : List Bool → Nat
  | [] => 0
  | l :: ls => (if l && !last then 1 else 0) + risingEdges l ls

/-- Number of `true → false` transitions of the sampled level relative to
a starting level. -/
def fallingEdges (last : Bool) : List Bool → Nat
  | [] => 0
  | l :: ls => (if !l && last then 1 else 0) + fallingEdges l ls

lemma button_process1_eq (last : Bool) (l : Bool) :
    button_process1 ⟨last, true, true⟩ l =
      (⟨l, true, true⟩,
        if l && !last then [BtnEv.press]
        else if !l && last then [BtnEv.release] else []) := by
  cases l <;> cases last <;> rfl

lemma runBtn_counts (levels : List Bool) : ∀ last : Bool,
    countEv (runBtn ⟨last, true, true⟩ levels) BtnEv.press = risingEdges last levels ∧
    countEv (runBtn ⟨last, true, true⟩ levels) BtnEv.release = fallingEdges last levels := by
  induction levels with
  | nil => intro last; simp [runBtn, countEv, risingEdges, fallingEdges]
  | cons l ls ih =>
    intro last
    obtain ⟨ihp, ihr⟩ := ih l
    simp only [countEv] at ihp ihr ⊢
    simp only [runBtn, button_process1_eq, risingEdges, fallingEdges,
      List.flatten_cons, List.count_append]
    constructor
    · rw [ihp]
      cases l <;> cases last <;> simp [List.count_cons, List.count_nil]
    · rw [ihr]
      cases l <;> cases last <;> simp [List.count_cons, List.count_nil]

lemma constant_no_rising (levels : List Bool) : ∀ last : Bool,
    (∀ l ∈ levels, l = last) → risingEdges last levels = 0 := by
  induction levels with
  | nil => intro last _; rfl
  | cons l ls ih =>
    intro last h
    have hl : l = last := h l (by simp)
    subst hl
    simp only [risingEdges]
    have hall : ∀ x ∈ ls, x = l := fun x hx => h x (by simp [hx])
    rw [ih l hall]
    cases l <;> simp

lemma constant_no_falling (levels : List Bool) : ∀ last : Bool,
    (∀ l ∈ levels, l = last) → fallingEdges last levels = 0 := by
  induction levels with
  | nil => intro last _; rfl
  | cons l ls ih =>
    intro last h
    have hl : l = last := h l (by simp)
    subst hl
    simp only [fallingEdges]
    have hall : ∀ x ∈ ls, x = l := fun x hx => h x (by simp [hx])
    rw [ih l hall]
    cases l <;> simp

/-- C3 (counterexample): for the level sequence
`false, false, true, true, false` the press callback is not invoked on the
second sample (the second sample fires nothing); the single press
invocation happens on the third sample, where the level first becomes
`true`. -/
theorem button_press_sample_counterexample :
    runBtn ⟨false, true, true⟩ [false, false, true, true, false] =
      [[], [], [BtnEv.press], [], [BtnEv.release]] ∧
    BtnEv.press ∉ (runBtn ⟨false, true, true⟩
      [false, false, true, true, false]).getD 1 [] := by
  decide

/-- C3 (amended): for one button (initially released, both callbacks
registered) whose observed level sequence over five consecutive polls is
`false, false, true, true, false`, the press callback is invoked exactly
once — on the third sample, where the level first becomes `true` — and
the release callback exactly once, on the fifth sample; for a constant
level sequence no callback is ever invoked; and in general each callback
fires exactly once per `false → true` (press) or `true → false` (release)
transition of the sampled level. -/
theorem button_edge_detection :
    (runBtn ⟨false, true, true⟩ [false, false, true, true, false] =
       [[], [], [BtnEv.press], [], [BtnEv.release]]) ∧
    (∀ (last : Bool) (levels : List Bool),
       countEv (runBtn ⟨last, true, true⟩ levels) BtnEv.press =
         risingEdges last levels ∧
       countEv (runBtn ⟨last, true, true⟩ levels) BtnEv.release =
         fallingEdges last levels) ∧
    (∀ (last : Bool) (levels : List Bool), (∀ l ∈ levels, l = last) →
       countEv (runBtn ⟨last, true, true⟩ levels) BtnEv.press = 0 ∧
       countEv (runBtn ⟨last, true, true⟩ levels) BtnEv.release = 0) := by
  refine ⟨by decide, fun last levels => runBtn_counts levels last, ?_⟩
  intro last levels h
  obtain ⟨hp, hr⟩ := runBtn_counts levels last
  exact ⟨by rw [hp]; exact constant_no_rising levels last h,
         by rw [hr]; exact constant_no_falling levels last h⟩

/-- C3 witness: the constant-level part instantiated at a button held
`true` for two samples — nothing fires. -/
theorem button_edge_detection_witness :
    countEv (runBtn ⟨true, true, true⟩ [true, true]) BtnEv.press = 0 ∧
    countEv (runBtn ⟨true, true, true⟩ [true, true]) BtnEv.release = 0 :=
  button_edge_detection.2.2 true [true, true] (by decide)

/-! ## Controller background task (`adlib.cpp` lines 22-36)

`Controller::start_task` creates the background `pros::Task` only when
`controller_task == nullptr`.  The task body loops forever:
`button_process()`, then `print_process()` when `disp_cnt == 0`, then
`disp_cnt = (disp_cnt + 1) % 2` and `pros::delay(25)`. -/

/-- The `controller_task` pointer plus a count of `new pros::Task`
executions. -/
structure TaskState where
  task : Option Nat
  spawned : Nat
deriving DecidableEq

/-- `Controller::start_task`. -/
def start_task (s : TaskState) : TaskState :=
  match s.task with
  | none => { task := some s.spawned, spawned := s.spawned + 1 }
  | some _ => s

/-- Value of `disp_cnt` at the start of cycle `n` of the task loop
(`disp_cnt` starts at 0 and is updated to `(disp_cnt + 1) % 2` each
cycle). -/
def dispCnt : Nat → Nat
  | 0 => 0
  | n + 1 => (dispCnt n + 1) % 2

/-- One action performed by the task loop. -/
inductive CycleAct where
  | buttonProc : CycleAct
  | printProc : CycleAct
  | sleep (ms : Nat) : CycleAct
deriving DecidableEq

/-- The actions of cycle `n` of the task loop, in order: the button pass,
the queue drain when `disp_cnt == 0`, and the fixed 25 ms delay. -/
def cycleActs (n : Nat) : List CycleAct :=
  [CycleAct.buttonProc] ++
    (if dispCnt n = 0 then [CycleAct.printProc] else []) ++
    [CycleAct.sleep 25]

lemma dispCnt_eq (n : Nat) : dispCnt n = n % 2 := by
  induction n with
  | zero => rfl
  | succ n ih => simp only [dispCnt, ih]; omega

/-- C6: the background task is started at most once — `start_task` on a
state that already has a task is a no-op, `start_task` is idempotent, and
two consecutive calls from the initial state spawn exactly one task; in
the perpetual loop, every cycle performs the button edge-detector pass and
the fixed 25-time-unit sleep, the queue drain happens in cycle `n` exactly
when `n` is even, and of any two consecutive cycles exactly one drains —
never both, and no cycle skips the button pass. -/
theorem task_schedule :
    (∀ s : TaskState, s.task ≠ none → start_task s = s) ∧
    (∀ s : TaskState, start_task (start_task s) = start_task s) ∧
    ((start_task ⟨none, 0⟩).spawned = 1 ∧
     (start_task (start_task ⟨none, 0⟩)).spawned = 1) ∧
    (∀ n, CycleAct.buttonProc ∈ cycleActs n) ∧
    (∀ n, CycleAct.sleep 25 ∈ cycleActs n) ∧
    (∀ n, CycleAct.printProc ∈ cycleActs n ↔ n % 2 = 0) ∧
    (∀ n, (CycleAct.printProc ∈ cycleActs n ∧ CycleAct.printProc ∉ cycleActs (n + 1)) ∨
          (CycleAct.printProc ∉ cycleActs n ∧ CycleAct.printProc ∈ cycleActs (n + 1))) := by
  have hmem : ∀ n, CycleAct.printProc ∈ cycleActs n ↔ n % 2 = 0 := by
    intro n
    by_cases h : n % 2 = 0 <;> simp [cycleActs, dispCnt_eq, h]
  refine ⟨?_, ?_, by decide, ?_, ?_, hmem, ?_⟩
  · intro s h
    match hs : s.task with
    | some t => simp [start_task, hs]
    | none => exact absurd hs h
  · intro s
    match hs : s.task with
    | some t => simp [start_task, hs]
    | none => simp [start_task, hs]
  · intro n
    by_cases h : dispCnt n = 0 <;> simp [cycleActs, h]
  · intro n
    by_cases h : dispCnt n = 0 <;> simp [cycleActs, h]
  · intro n
    rcases Nat.mod_two_eq_zero_or_one n with h | h
    · left
      rw [hmem, hmem]
      omega
    · right
      rw [hmem, hmem]
      omega

/-- C6 witness: a second `start_task` call on a state with a live task is
a no-op. -/
theorem task_schedule_witness :
    start_task ⟨some 0, 1⟩ = ⟨some 0, 1⟩ :=
  task_schedule.1 ⟨some 0, 1⟩ (by decide)

/-! ## Widget corner-radius clamp (`adlib.cpp` lines 446-454)

The `Brain::Button` constructor stores
`radius < 0 ? 0 : (radius > w/2 || radius > h/2 ? min(w/2, h/2) : radius)`.
Widths and heights are taken as naturals (the geometric domain); the
requested radius may be negative. -/

/-- The effective corner radius stored by the `Brain::Button`
constructor. -/
def clamp_radius (w h : Nat) (radius : Int) : Int :=
  if radius < 0 then 0
  else if ((w / 2 : Nat) : Int) < radius ∨ ((h / 2 : Nat) : Int) < radius then
    min ((w / 2 : Nat) : Int) ((h / 2 : Nat) : Int)
  else radius

/-- C7: for every widget of width `w` and height `h` and requested corner
radius `r`, the stored effective radius is `r` clamped to
`[0, min(w/2, h/2)]` (integer halves): a negative `r` yields 0, an `r`
exceeding half the smaller side yields `min(w/2, h/2)`, and otherwise `r`
is kept; in particular width 20, height 10 and requested radius 9 yield
effective radius 5. -/
theorem radius_clamp :
    (∀ (w h : Nat) (r : Int),
       clamp_radius w h r =
         max 0 (min r (min ((w / 2 : Nat) : Int) ((h / 2 : Nat) : Int)))) ∧
    clamp_radius 20 10 9 = 5 := by
  refine ⟨?_, by decide⟩
  intro w h r
  simp only [clamp_radius]
  split_ifs with h1 h2 <;> omega

/-! ## Touch dispatcher (`adlib.cpp` lines 218-251, 536-539)

`Brain::touch_pressed_func` / `touch_released_func`: run the optional
whole-screen pre-filter; if it returns `false`, stop.  Otherwise walk the
registered widget list in order; for the first widget whose
`is_touched()` holds, invoke its callback if present, then return.  The
embedding records a trace: the pre-filter call, each hit-test performed,
and the callback invocation. -/

/-- A registered `Brain::Button`, reduced to what dispatch reads: the
rectangle corners and whether press/release callbacks are registered. -/
structure TWidget where
  x1 : Int
  y1 : Int
  x2 : Int
  y2 : Int
  has_press : Bool
  has_release : Bool
deriving DecidableEq

/-- `Brain::Button::is_touched` at touch coordinate `(tx, ty)`:
`x >= x1 && x <= x2 && y >= y1 && y <= y2` (inclusive bounds). -/
def is_touched (w : TWidget) (tx ty : Int) : Bool :=
  decide (w.x1 ≤ tx) && decide (tx ≤ w.x2) && decide (w.y1 ≤ ty) && decide (ty ≤ w.y2)

/-- One observable step of a touch-dispatch call. -/
inductive TouchEv where
  | prefilter (ret : Bool) : TouchEv
  | tested (i : Nat) : TouchEv
  | invoked (i : Nat) : TouchEv
deriving DecidableEq

/-- The widget loop of `Brain::touch_pressed_func`, hit-testing widgets
`i, i+1, ...` in registration order; stops at the first touched widget,
invoking its press callback when present. -/
def hitLoopPress (tx ty : Int) : List TWidget → Nat → List TouchEv
  | [], _ => []
  | w :: rest, i =>
    if is_touched w tx ty then
      TouchEv.tested i :: (if w.has_press then [TouchEv.invoked i] else [])
    else
      TouchEv.tested i :: hitLoopPress tx ty rest (i + 1)

/-- The widget loop of `Brain::touch_released_func` (release
callbacks). -/
def hitLoopRelease (tx ty : Int) : List TWidget → Nat → List TouchEv
  | [], _ => []
  | w :: rest, i =>
    if is_touched w tx ty then
      TouchEv.tested i :: (if w.has_release then [TouchEv.invoked i] else [])
    else
      TouchEv.tested i :: hitLoopRelease tx ty rest (i + 1)

/-- `Brain::touch_pressed_func`: `pre` is the whole-screen pre-filter —
`none` when unregistered, `some b` when registered and returning `b` for
this event. -/
def touch_pressed_func (pre : Option Bool) (ws : List TWidget) (tx ty : Int) :
    List TouchEv :=
  match pre with
  | some b => TouchEv.prefilter b :: (if b then hitLoopPress tx ty ws 0 else [])
  | none => hitLoopPress tx ty ws 0

/-- `Brain::touch_released_func`. -/
def touch_released_func (pre : Option Bool) (ws : List TWidget) (tx ty : Int) :
    List TouchEv :=
  match pre with
  | some b => TouchEv.prefilter b :: (if b then hitLoopRelease tx ty ws 0 else [])
  | none => hitLoopRelease tx ty ws 0

/-- Index of the first widget of the list containing the touch point. -/
def firstHit (tx ty : Int) : List TWidget → Option Nat
  | [] => none
  | w :: rest =>
    if is_touched w tx ty then some 0
    else (firstHit tx ty rest).map (· + 1)

lemma hitLoopPress_of_none (tx ty : Int) : ∀ (ws : List TWidget) (i : Nat),
    firstHit tx ty ws = none →
    hitLoopPress tx ty ws i = (List.range' i ws.length).map TouchEv.tested := by
  intro ws
  induction ws with
  | nil => intro i _; rfl
  | cons w rest ih =>
    intro i h
    cases ht : is_touched w tx ty with
    | true => simp [firstHit, ht] at h
    | false =>
      simp only [firstHit, ht, Bool.false_eq_true, if_false, Option.map_eq_none'] at h
      simp [hitLoopPress, ht, ih (i + 1) h, List.range']

lemma hitLoopRelease_of_none (tx ty : Int) : ∀ (ws : List TWidget) (i : Nat),
    firstHit tx ty ws = none →
    hitLoopRelease tx ty ws i = (List.range' i ws.length).map TouchEv.tested := by
  intro ws
  induction ws with
  | nil => intro i _; rfl
  | cons w rest ih =>
    intro i h
    cases ht : is_touched w tx ty with
    | true => simp [firstHit, ht] at h
    | false =>
      simp only [firstHit, ht, Bool.false_eq_true, if_false, Option.map_eq_none'] at h
      simp [hitLoopRelease, ht, ih (i + 1) h, List.range']

lemma firstHit_none_untouched (tx ty : Int) : ∀ ws : List TWidget,
    firstHit tx ty ws = none → ∀ w' ∈ ws, is_touched w' tx ty = false := by
  intro ws
  induction ws with
  | nil => intro _ w' hw'; simp at hw'
  | cons w rest ih =>
    intro h w' hw'
    cases ht : is_touched w tx ty with
    | true => simp [firstHit, ht] at h
    | false =>
      simp only [firstHit, ht, Bool.false_eq_true, if_false, Option.map_eq_none'] at h
      rcases List.mem_cons.mp hw' with hw | hw
      · rw [hw]; exact ht
      · exact ih h w' hw

lemma hitLoopPress_of_some (tx ty : Int) : ∀ (ws : List TWidget) (j : Nat),
    firstHit tx ty ws = some j →
    ∃ w, ws[j]? = some w ∧ is_touched w tx ty = true ∧
      ∀ i, hitLoopPress tx ty ws i =
        (List.range' i (j + 1)).map TouchEv.tested ++
          (if w.has_press then [TouchEv.invoked (i + j)] else []) := by
  intro ws
  induction ws with
  | nil => intro j h; simp [firstHit] at h
  | cons w rest ih =>
    intro j h
    cases ht : is_touched w tx ty with
    | true =>
      simp only [firstHit, ht, if_true, Option.some_inj] at h
      subst h
      refine ⟨w, by simp, ht, ?_⟩
      intro i
      simp [hitLoopPress, ht, List.range']
    | false =>
      simp only [firstHit, ht, Bool.false_eq_true, if_false] at h
      rcases Option.map_eq_some'.mp h with ⟨j', hj', rfl⟩
      obtain ⟨w0, hget, htw0, htr⟩ := ih j' hj'
      refine ⟨w0, by simpa using hget, htw0, ?_⟩
      intro i
      have harith : i + (j' + 1) = i + 1 + j' := by omega
      simp [hitLoopPress, ht, htr (i + 1), List.range', harith]

lemma hitLoopRelease_of_some (tx ty : Int) : ∀ (ws : List TWidget) (j : Nat),
    firstHit tx ty ws = some j →
    ∃ w, ws[j]? = some w ∧ is_touched w tx ty = true ∧
      ∀ i, hitLoopRelease tx ty ws i =
        (List.range' i (j + 1)).map TouchEv.tested ++
          (if w.has_release then [TouchEv.invoked (i + j)] else []) := by
  intro ws
  induction ws with
  | nil => intro j h; simp [firstHit] at h
  | cons w rest ih =>
    intro j h
    cases ht : is_touched w tx ty with
    | true =>
      simp only [firstHit, ht, if_true, Option.some_inj] at h
      subst h
      refine ⟨w, by simp, ht, ?_⟩
      intro i
      simp [hitLoopRelease, ht, List.range']
    | false =>
      simp only [firstHit, ht, Bool.false_eq_true, if_false] at h
      rcases Option.map_eq_some'.mp h with ⟨j', hj', rfl⟩
      obtain ⟨w0, hget, htw0, htr⟩ := ih j' hj'
      refine ⟨w0, by simpa using hget, htw0, ?_⟩
      intro i
      have harith : i + (j' + 1) = i + 1 + j' := by omega
      simp [hitLoopRelease, ht, htr (i + 1), List.range', harith]

lemma firstHit_first (tx ty : Int) : ∀ (ws : List TWidget) (j : Nat),
    firstHit tx ty ws = some j →
    ∀ k, k < j → ∀ w', ws[k]? = some w' → is_touched w' tx ty = false := by
  intro ws
  induction ws with
  | nil => intro j h; simp [firstHit] at h
  | cons w rest ih =>
    intro j h k hk w' hget
    cases ht : is_touched w tx ty with
    | true =>
      simp only [firstHit, ht, if_true, Option.some_inj] at h
      omega
    | false =>
      simp only [firstHit, ht, Bool.false_eq_true, if_false] at h
      rcases Option.map_eq_some'.mp h with ⟨j', hj', rfl⟩
      cases k with
      | zero =>
        simp only [List.getElem?_cons_zero, Option.some_inj] at hget
        rw [← hget]; exact ht
      | succ k' =>
        simp only [List.getElem?_cons_succ] at hget
        exact ih j' hj' k' (by omega) w' hget

/-- C4: on a touch-pressed event, a registered pre-filter returning
`false` suppresses widget dispatch entirely (the trace is just the
pre-filter call: no widget is hit-tested, none is invoked); otherwise
(pre-filter returning `true`, or unregistered) the widget loop runs: when
some widget contains the point, the loop hit-tests exactly widgets
`0..j` where `j` is the first index whose rectangle contains the
coordinate — containment is the inclusive test
`x1 ≤ x ≤ x2 ∧ y1 ≤ y ≤ y2` — invokes exactly that widget's press
callback if present (all earlier widgets do not contain the point, and no
widget after `j` is tested even if it also contains the point); when no
widget contains the point, every widget is tested and none invoked.  The
symmetric property holds for touch-released events with the release
callbacks. -/
theorem touch_dispatch :
    (∀ (w : TWidget) (tx ty : Int),
       is_touched w tx ty = true ↔
         (w.x1 ≤ tx ∧ tx ≤ w.x2 ∧ w.y1 ≤ ty ∧ ty ≤ w.y2)) ∧
    (∀ (ws : List TWidget) (tx ty : Int),
       touch_pressed_func (some false) ws tx ty = [TouchEv.prefilter false] ∧
       touch_released_func (some false) ws tx ty = [TouchEv.prefilter false]) ∧
    (∀ (ws : List TWidget) (tx ty : Int),
       touch_pressed_func (some true) ws tx ty =
         TouchEv.prefilter true :: hitLoopPress tx ty ws 0 ∧
       touch_pressed_func none ws tx ty = hitLoopPress tx ty ws 0 ∧
       touch_released_func (some true) ws tx ty =
         TouchEv.prefilter true :: hitLoopRelease tx ty ws 0 ∧
       touch_released_func none ws tx ty = hitLoopRelease tx ty ws 0) ∧
    (∀ (ws : List TWidget) (tx ty : Int) (j : Nat),
       firstHit tx ty ws = some j →
       ∃ w, ws[j]? = some w ∧ is_touched w tx ty = true ∧
         (∀ k, k < j → ∀ w', ws[k]? = some w' → is_touched w' tx ty = false) ∧
         hitLoopPress tx ty ws 0 =
           (List.range' 0 (j + 1)).map TouchEv.tested ++
             (if w.has_press then [TouchEv.invoked j] else []) ∧
         hitLoopRelease tx ty ws 0 =
           (List.range' 0 (j + 1)).map TouchEv.tested ++
             (if w.has_release then [TouchEv.invoked j] else [])) ∧
    (∀ (ws : List TWidget) (tx ty : Int),
       firstHit tx ty ws = none →
       hitLoopPress tx ty ws 0 = (List.range' 0 ws.length).map TouchEv.tested ∧
       hitLoopRelease tx ty ws 0 = (List.range' 0 ws.length).map TouchEv.tested ∧
       ∀ w' ∈ ws, is_touched w' tx ty = false) := by
  refine ⟨?_, ?_, ?_, ?_, ?_⟩
  · intro w tx ty
    simp [is_touched, and_assoc]
  · intro ws tx ty
    exact ⟨rfl, rfl⟩
  · intro ws tx ty
    exact ⟨rfl, rfl, rfl, rfl⟩
  · intro ws tx ty j h
    obtain ⟨w, hget, htw, htrP⟩ := hitLoopPress_of_some tx ty ws j h
    obtain ⟨w', hget', _, htrR⟩ := hitLoopRelease_of_some tx ty ws j h
    have hww : w' = w := by
      rw [hget] at hget'
      exact (Option.some_inj.mp hget').symm
    rw [hww] at htrR
    refine ⟨w, hget, htw, firstHit_first tx ty ws j h, ?_, ?_⟩
    · simpa using htrP 0
    · simpa using htrR 0
  · intro ws tx ty h
    exact ⟨hitLoopPress_of_none tx ty ws 0 h, hitLoopRelease_of_none tx ty ws 0 h,
      firstHit_none_untouched tx ty ws h⟩

/-- C4 witness: two overlapping widgets both containing the point
`(5, 5)`; only the first (index 0) is hit-tested and invoked, the second
is never tested. -/
theorem touch_dispatch_witness :
    ∃ w, [(⟨0, 0, 10, 10, true, true⟩ : TWidget),
          ⟨0, 0, 20, 20, true, true⟩][(0 : Nat)]? = some w ∧
      is_touched w 5 5 = true ∧
      (∀ k, k < 0 → ∀ w',
        [(⟨0, 0, 10, 10, true, true⟩ : TWidget),
         ⟨0, 0, 20, 20, true, true⟩][k]? = some w' →
        is_touched w' 5 5 = false) ∧
      hitLoopPress 5 5 [⟨0, 0, 10, 10, true, true⟩, ⟨0, 0, 20, 20, true, true⟩] 0 =
        (List.range' 0 1).map TouchEv.tested ++
          (if w.has_press then [TouchEv.invoked 0] else []) ∧
      hitLoopRelease 5 5 [⟨0, 0, 10, 10, true, true⟩, ⟨0, 0, 20, 20, true, true⟩] 0 =
        (List.range' 0 1).map TouchEv.tested ++
          (if w.has_release then [TouchEv.invoked 0] else []) :=
  touch_dispatch.2.2.2.1
    [⟨0, 0, 10, 10, true, true⟩, ⟨0, 0, 20, 20, true, true⟩] 5 5 0 (by decide)

/-! ## Brain instance pointer and button self-registration
(`adlib.cpp` lines 160-164 and 456-460)

`Brain::instance` is a process-wide pointer, set by every `Brain::Brain()`
to the new object; `Brain::Button::Button` finishes by reading it and,
when non-null, appending itself to that brain's `buttons` vector.  We
model the process state as the instance pointer (an index) plus the
widget list of every brain constructed so far. -/

/-- Process-wide state: `Brain::instance` (`none` = null) and each
constructed brain's widget list, indexed by construction order. -/
structure BrainSys where
  inst : Option Nat
  brains : List (List TWidget)
deriving DecidableEq

/-- `Brain::Brain()`: a new brain (with an empty widget list) is created
and `Brain::instance` is overwritten to point at it. -/
def Brain_new (s : BrainSys) : BrainSys :=
  { inst := some s.brains.length, brains := s.brains ++ [[]] }

/-- `Brain::Button::Button` (the self-registration tail): construction
always completes and returns the widget; if `Brain::instance` is non-null
the widget is appended to that brain's `buttons` list, otherwise no list
changes. -/
def Button_new (w : TWidget) (s : BrainSys) : BrainSys × TWidget :=
  match s.inst with
  | none => (s, w)
  | some b => ({ s with brains := s.brains.set b ((s.brains.getD b []) ++ [w]) }, w)

lemma set_append_last {α : Type} (L : List α) (x y : α) :
    (L ++ [x]).set L.length y = L ++ [y] := by
  induction L with
  | nil => rfl
  | cons a L ih => simp [List.set, ih]

lemma getD_append_last {α : Type} (L : List α) (x d : α) :
    (L ++ [x]).getD L.length d = x := by
  induction L with
  | nil => rfl
  | cons a L ih => simpa [List.getD] using ih

/-- C10: a `Brain::Button` constructed while `Brain::instance` is null
completes construction normally (the widget is produced) but is added to
no display's widget list — hence, being on no list, no touch-pressed or
touch-released dispatch ever invokes its callbacks (every invocation
targets a member of the dispatched list); and since each `Brain`
construction overwrites the instance pointer with itself, a button
constructed afterwards registers exactly into the most recently
constructed brain's widget list, leaving all other lists unchanged. -/
theorem orphan_button :
    (∀ (w : TWidget) (s : BrainSys), s.inst = none →
       (Button_new w s).1 = s ∧ (Button_new w s).2 = w) ∧
    (∀ (w : TWidget) (l : List TWidget) (pre : Option Bool) (tx ty : Int)
       (j : Nat), w ∉ l →
       (TouchEv.invoked j ∈ touch_pressed_func pre l tx ty ∨
        TouchEv.invoked j ∈ touch_released_func pre l tx ty) →
       ∃ h : j < l.length, l.get ⟨j, h⟩ ≠ w) ∧
    (∀ s : BrainSys, (Brain_new s).inst = some s.brains.length ∧
       (Brain_new s).brains.getD s.brains.length [] = []) ∧
    (∀ (w : TWidget) (s : BrainSys),
       (Button_new w (Brain_new s)).1.brains = s.brains ++ [[w]] ∧
       (Button_new w (Brain_new s)).1.inst = some s.brains.length) := by
  refine ⟨?_, ?_, ?_, ?_⟩
  · intro w s h
    simp [Button_new, h]
  · intro w l pre tx ty j hw hmem
    have hloop : TouchEv.invoked j ∈ hitLoopPress tx ty l 0 ∨
        TouchEv.invoked j ∈ hitLoopRelease tx ty l 0 := by
      rcases hmem with hmem | hmem <;>
        [skip; skip] <;>
        · cases pre with
          | none => simp_all [touch_pressed_func, touch_released_func]
          | some b =>
            cases b <;> simp_all [touch_pressed_func, touch_released_func]
    have hj : ∃ w0, l[j]? = some w0 ∧ is_touched w0 tx ty = true := by
      cases hfh : firstHit tx ty l with
      | none =>
        exfalso
        have hP := hitLoopPress_of_none tx ty l 0 hfh
        have hR := hitLoopRelease_of_none tx ty l 0 hfh
        rcases hloop with hm | hm
        · rw [hP] at hm
          simp [List.mem_map] at hm
        · rw [hR] at hm
          simp [List.mem_map] at hm
      | some j' =>
        obtain ⟨w0, hget, htw, htrP⟩ := hitLoopPress_of_some tx ty l j' hfh
        obtain ⟨w1, hget1, _, htrR⟩ := hitLoopRelease_of_some tx ty l j' hfh
        have hjj : j = j' := by
          rcases hloop with hm | hm
          · rw [htrP 0] at hm
            rcases List.mem_append.mp hm with hm | hm
            · simp [List.mem_map] at hm
            · rcases hw0 : w0.has_press with hb | hb <;> rw [hw0] at hm <;>
                simp at hm
              omega
          · rw [htrR 0] at hm
            rcases List.mem_append.mp hm with hm | hm
            · simp [List.mem_map] at hm
            · rcases hw1 : w1.has_release with hb | hb <;> rw [hw1] at hm <;>
                simp at hm
              omega
        subst hjj
        exact ⟨w0, hget, htw⟩
    obtain ⟨w0, hget, _⟩ := hj
    have hmem0 : w0 ∈ l := List.getElem?_mem hget
    have hjl : j < l.length := by
      by_contra hge
      rw [List.getElem?_eq_none (by omega)] at hget
      exact Option.noConfusion hget
    refine ⟨hjl, ?_⟩
    have hval : l.get ⟨j, hjl⟩ = w0 := by
      have h2 := List.getElem?_eq_getElem hjl
      rw [h2] at hget
      simpa [List.get_eq_getElem] using Option.some_inj.mp hget
    rw [hval]
    intro hcon
    exact hw (hcon ▸ hmem0)
  · intro s
    refine ⟨rfl, ?_⟩
    simpa [Brain_new] using getD_append_last s.brains [] []
  · intro w s
    have hgd : (s.brains ++ [[]]).getD s.brains.length [] = ([] : List TWidget) :=
      getD_append_last s.brains [] []
    constructor
    · simp only [Button_new, Brain_new, hgd]
      simpa using set_append_last s.brains [] [w]
    · simp [Button_new, Brain_new]

/-- C10 witness: a button constructed while no brain exists changes
nothing; a dispatch on a singleton list never invokes a widget that is
not on the list; and after constructing a brain, a new button lands in
that brain's list. -/
theorem orphan_button_witness :
    ((Button_new ⟨0, 0, 1, 1, true, true⟩ ⟨none, []⟩).1 = ⟨none, []⟩ ∧
     (Button_new ⟨0, 0, 1, 1, true, true⟩ ⟨none, []⟩).2 = ⟨0, 0, 1, 1, true, true⟩) ∧
    (Button_new ⟨0, 0, 1, 1, true, true⟩ (Brain_new ⟨none, []⟩)).1.brains =
      [[⟨0, 0, 1, 1, true, true⟩]] :=
  ⟨orphan_button.1 ⟨0, 0, 1, 1, true, true⟩ ⟨none, []⟩ rfl,
   (orphan_button.2.2.2 ⟨0, 0, 1, 1, true, true⟩ ⟨none, []⟩).1⟩

/-! ## Bitmap blit (`adlib.cpp` lines 287-388)

`Brain::draw_image` reads a custom indexed bitmap (4-byte big-endian
width/height header, 256-entry RGBA palette, row-major 1-byte indices)
from the SD card in 2048-byte chunks.  The file is modelled as an optional
byte list (`none` = `fopen` failed); `fread` delivers successive
2048-byte chunks of it.  Palette entries are pre-blended against the
background color once; the pixel loop only looks colors up. -/

/-- One emitted `pros::screen::draw_pixel` call with its pen color. -/
structure Draw where
  x : Int
  y : Int
  color : Nat
deriving DecidableEq

/-- Red channel of a background color, `bgcolor >> 16 & 0xff`. -/
def bgChanR (bg : Nat) : Nat := (bg >>> 16) &&& 255

/-- Green channel, `bgcolor >> 8 & 0xff`. -/
def bgChanG (bg : Nat) : Nat := (bg >>> 8) &&& 255

/-- Blue channel, `bgcolor & 0xff`. -/
def bgChanB (bg : Nat) : Nat := bg &&& 255

/-- One blended channel as stored back into the `uint8_t` buffer:
`src * alpha / 255 + bgchan * (255 - alpha) / 255` (the result of the
`int` arithmetic is truncated to a byte by the store). -/
def blendStore (src a bgc : Nat) : Nat :=
  (src * a / 255 + bgc * (255 - a) / 255) % 256

/-- The palette-blending loop body for entry `i` (`bytes` is the first
2048-byte chunk): when `alpha != 255` each channel is blended against
the background color in place; the entry's color word is then
`r << 16 | g << 8 | b`.  Returns `(color, alpha)`. -/
def paletteEntry (bytes : List Nat) (bg : Nat) (i : Nat) : Nat × Nat :=
  let r0 := bytes.getD (4 + i * 4) 0
  let g0 := bytes.getD (4 + i * 4 + 1) 0
  let b0 := bytes.getD (4 + i * 4 + 2) 0
  let a := bytes.getD (4 + i * 4 + 3) 0
  if a ≠ 255 then
    ((blendStore r0 a (bgChanR bg) <<< 16) |||
     (blendStore g0 a (bgChanG bg) <<< 8) ||| blendStore b0 a (bgChanB bg), a)
  else
    ((r0 <<< 16) ||| (g0 <<< 8) ||| b0, a)

/-- The body of the pixel loop for one index byte `b` at cursor
`st = (col, row)`: draw `palette[b]` at `(col + x0, row + y0)` unless
`alpha[b] == 0`, then advance the cursor. -/
def pixelStep (alphaF palF : Nat → Nat) (w : Nat) (x0 y0 : Int) (b : Nat)
    (st : Nat × Nat) : (Nat × Nat) × List Draw :=
  let ds := if alphaF b ≠ 0 then
    [⟨(st.1 : Int) + x0, (st.2 : Int) + y0, palF b⟩] else []
  if st.1 + 1 ≥ w then ((0, st.2 + 1), ds) else ((st.1 + 1, st.2), ds)

/-- The inner `for` loop of the pixel phase over one chunk segment. -/
def processBytes (alphaF palF : Nat → Nat) (w : Nat) (x0 y0 : Int) :
    List Nat → (Nat × Nat) → (Nat × Nat) × List Draw
  | [], st => (st, [])
  | b :: bs, st =>
    ((processBytes alphaF palF w x0 y0 bs (pixelStep alphaF palF w x0 y0 b st).1).1,
     (pixelStep alphaF palF w x0 y0 b st).2 ++
       (processBytes alphaF palF w x0 y0 bs (pixelStep alphaF palF w x0 y0 b st).1).2)

/-- Successive `fread(buf, 1, 2048, file)` results after the first read:
the remaining bytes cut into 2048-byte chunks (a zero-length read, i.e.
end of file, ends the list). -/
def chunksOf2048 (l : List Nat) : List (List Nat) :=
  if h : l = [] then [] else l.take 2048 :: chunksOf2048 (l.drop 2048)
termination_by l.length
decreasing_by
  simp only [List.length_drop]
  have : l.length ≠ 0 := fun hz => h (List.length_eq_zero.mp hz)
  omega

/-- The outer `while (row < h)` loop over chunks. -/
def drawChunksLoop (alphaF palF : Nat → Nat) (w h : Nat) (x0 y0 : Int) :
    List (List Nat) → (Nat × Nat) → List Draw
  | [], _ => []
  | c :: rest, st =>
    if st.2 < h then
      (processBytes alphaF palF w x0 y0 c st).2 ++
        drawChunksLoop alphaF palF w h x0 y0 rest
          (processBytes alphaF palF w x0 y0 c st).1
    else []

/-- Outcome of one `Brain::draw_image` call: the on-screen error message
printed (if any), the pixel draw calls emitted, and whether the file was
opened / closed. -/
structure DrawOutcome where
  errorMsg : Option String
  draws : List Draw
  opened : Bool
  closed : Bool
deriving DecidableEq

/-- `Brain::draw_image(filename, x, y, bgcolor)`.  `sd` is
`pros::usd::is_installed()`, `file` the opened byte stream (`none` when
`fopen` returns null), `bgcolor` the 32-bit argument (`0xffffffff` =
"keep background"), `oldEraser` the current eraser color.  `CENTER`
is the sentinel 65535; `SCREEN_W = 480`, `SCREEN_H = 239`. -/
def draw_image (sd : Bool) (file : Option (List Nat)) (x y : Int)
    (bgcolor oldEraser : Nat) : DrawOutcome :=
  if !sd then ⟨some "SD Card not found!", [], false, false⟩
  else
    match file with
    | none => ⟨some "File not found!", [], false, false⟩
    | some bytes =>
      if min 2048 bytes.length < 4 + 1024 then
        ⟨some "Invalid image file!", [], true, true⟩
      else
        let firstChunk := bytes.take 2048
        let w := (firstChunk.getD 0 0) <<< 8 ||| firstChunk.getD 1 0
        let h := (firstChunk.getD 2 0) <<< 8 ||| firstChunk.getD 3 0
        let x0 : Int :=
          if x = 65535 then (480 - (w : Int)).tdiv 2
          else if 0 ≤ x then x else 480 + x - w
        let y0 : Int :=
          if y = 65535 then (239 - (h : Int)).tdiv 2
          else if 0 ≤ y then y else 239 + y - h
        let bg := if bgcolor ≠ 0xffffffff then bgcolor else oldEraser
        ⟨none,
         drawChunksLoop (fun i => (paletteEntry firstChunk bg i).2)
           (fun i => (paletteEntry firstChunk bg i).1) w h x0 y0
           (firstChunk.drop 1028 :: chunksOf2048 (bytes.drop 2048)) (0, 0),
         true, true⟩

lemma getD_lt_256 {bytes : List Nat} (hb : ∀ b ∈ bytes, b < 256) (n : Nat) :
    bytes.getD n 0 < 256 := by
  rcases hn : bytes[n]? with _ | b
  · simp [List.getD, hn]
  · have : b ∈ bytes := List.getElem?_mem hn
    simpa [List.getD, hn] using hb b this

lemma blend_le {s g a : Nat} (hs : s ≤ 255) (hg : g ≤ 255) (ha : a ≤ 255) :
    s * a / 255 + g * (255 - a) / 255 ≤ 255 := by
  have h1 : s * a / 255 ≤ a := by
    calc s * a / 255 ≤ 255 * a / 255 :=
          Nat.div_le_div_right (Nat.mul_le_mul_right a hs)
    _ = a := by omega
  have h2 : g * (255 - a) / 255 ≤ 255 - a := by
    calc g * (255 - a) / 255 ≤ 255 * (255 - a) / 255 :=
          Nat.div_le_div_right (Nat.mul_le_mul_right _ hg)
    _ = 255 - a := by omega
  omega

lemma blendStore_eq {s a g : Nat} (hs : s ≤ 255) (hg : g ≤ 255) (ha : a ≤ 255) :
    blendStore s a g = s * a / 255 + g * (255 - a) / 255 := by
  simp only [blendStore]
  exact Nat.mod_eq_of_lt (by have := blend_le hs hg ha; omega)

/-- C8: the alpha blending of `Brain::draw_image` happens once per
palette entry, not per pixel.  For byte-valued input, every palette
entry's stored color is exactly, channel-wise, the exact integer formula
`out = src * alpha / 255 + bg * (255 - alpha) / 255` against the chosen
background, and the entry's alpha byte is kept; an entry with
`alpha = 255` yields exactly the unmodified source color, independent of
the background; in the pixel loop, a byte whose palette alpha is 0
produces no draw call at all, a byte with non-zero alpha produces exactly
one draw call whose color is the palette lookup of that byte; hence every
draw call emitted over a whole chunk segment carries the single blended
color of the palette entry its index byte references. -/
theorem palette_blend_semantics :
    (∀ (bytes : List Nat) (bg : Nat) (i : Nat), (∀ b ∈ bytes, b < 256) →
       (paletteEntry bytes bg i).1 =
         ((bytes.getD (4 + i * 4) 0 * bytes.getD (4 + i * 4 + 3) 0 / 255 +
             bgChanR bg * (255 - bytes.getD (4 + i * 4 + 3) 0) / 255) <<< 16) |||
         ((bytes.getD (4 + i * 4 + 1) 0 * bytes.getD (4 + i * 4 + 3) 0 / 255 +
             bgChanG bg * (255 - bytes.getD (4 + i * 4 + 3) 0) / 255) <<< 8) |||
         (bytes.getD (4 + i * 4 + 2) 0 * bytes.getD (4 + i * 4 + 3) 0 / 255 +
             bgChanB bg * (255 - bytes.getD (4 + i * 4 + 3) 0) / 255) ∧
       (paletteEntry bytes bg i).2 = bytes.getD (4 + i * 4 + 3) 0) ∧
    (∀ (bytes : List Nat) (bg bg' : Nat) (i : Nat),
       bytes.getD (4 + i * 4 + 3) 0 = 255 →
       (paletteEntry bytes bg i).1 = (paletteEntry bytes bg' i).1 ∧
       (paletteEntry bytes bg i).1 =
         (bytes.getD (4 + i * 4) 0 <<< 16) |||
           (bytes.getD (4 + i * 4 + 1) 0 <<< 8) ||| bytes.getD (4 + i * 4 + 2) 0) ∧
    (∀ (alphaF palF : Nat → Nat) (w : Nat) (x0 y0 : Int) (b : Nat)
       (st : Nat × Nat), alphaF b = 0 →
       (pixelStep alphaF palF w x0 y0 b st).2 = []) ∧
    (∀ (alphaF palF : Nat → Nat) (w : Nat) (x0 y0 : Int) (b : Nat)
       (st : Nat × Nat), alphaF b ≠ 0 →
       (pixelStep alphaF palF w x0 y0 b st).2 =
         [⟨(st.1 : Int) + x0, (st.2 : Int) + y0, palF b⟩]) ∧
    (∀ (alphaF palF : Nat → Nat) (w : Nat) (x0 y0 : Int) (bytes : List Nat)
       (st : Nat × Nat),
       ∀ d ∈ (processBytes alphaF palF w x0 y0 bytes st).2,
         ∃ b ∈ bytes, alphaF b ≠ 0 ∧ d.color = palF b) := by
  refine ⟨?_, ?_, ?_, ?_, ?_⟩
  · intro bytes bg i hb
    have hr := getD_lt_256 hb (4 + i * 4)
    have hg := getD_lt_256 hb (4 + i * 4 + 1)
    have hbb := getD_lt_256 hb (4 + i * 4 + 2)
    have ha := getD_lt_256 hb (4 + i * 4 + 3)
    have hbgR : bgChanR bg ≤ 255 := Nat.and_le_right
    have hbgG : bgChanG bg ≤ 255 := Nat.and_le_right
    have hbgB : bgChanB bg ≤ 255 := Nat.and_le_right
    constructor
    · by_cases hA : bytes.getD (4 + i * 4 + 3) 0 = 255
      · simp only [paletteEntry, hA, ne_eq, not_true_eq_false, if_false]
        have e1 : bytes.getD (4 + i * 4) 0 * 255 / 255 +
            bgChanR bg * (255 - 255) / 255 = bytes.getD (4 + i * 4) 0 := by omega
        have e2 : bytes.getD (4 + i * 4 + 1) 0 * 255 / 255 +
            bgChanG bg * (255 - 255) / 255 = bytes.getD (4 + i * 4 + 1) 0 := by omega
        have e3 : bytes.getD (4 + i * 4 + 2) 0 * 255 / 255 +
            bgChanB bg * (255 - 255) / 255 = bytes.getD (4 + i * 4 + 2) 0 := by omega
        rw [e1, e2, e3]
      · simp only [paletteEntry, ne_eq, hA, not_false_eq_true, if_true]
        rw [blendStore_eq (by omega) hbgR (by omega),
          blendStore_eq (by omega) hbgG (by omega),
          blendStore_eq (by omega) hbgB (by omega)]
    · simp only [paletteEntry]
      split_ifs <;> rfl
  · intro bytes bg bg' i h255
    constructor
    · simp only [paletteEntry, h255, ne_eq, not_true_eq_false, if_false]
    · simp only [paletteEntry, h255, ne_eq, not_true_eq_false, if_false]
  · intro alphaF palF w x0 y0 b st h0
    simp only [pixelStep, h0, ne_eq, not_true_eq_false, if_false]
    split_ifs <;> rfl
  · intro alphaF palF w x0 y0 b st hne
    simp only [pixelStep, ne_eq, hne, not_false_eq_true, if_true]
    split_ifs <;> rfl
  · intro alphaF palF w x0 y0 bytes
    induction bytes with
    | nil => intro st d hd; simp [processBytes] at hd
    | cons b bs ih =>
      intro st d hd
      simp only [processBytes, List.mem_append] at hd
      rcases hd with hd | hd
      · simp only [pixelStep] at hd
        by_cases h0 : alphaF b = 0
        · simp only [h0, ne_eq, not_true_eq_false, if_false] at hd
          split_ifs at hd <;> simp at hd
        · simp only [ne_eq, h0, not_false_eq_true, if_true] at hd
          split_ifs at hd <;> simp only [List.mem_singleton] at hd <;>
            exact ⟨b, by simp, h0, by rw [hd]⟩
      · obtain ⟨b', hb', hne', hcol⟩ := ih _ d hd
        exact ⟨b', by simp [hb'], hne', hcol⟩

/-- C8 witness: palette entry 0 of a file whose entry 0 is
`(255, 0, 0, alpha = 255)` against magenta background — the alpha-255
entry keeps the pure source color for any two backgrounds; and the pixel
step at alpha 0 draws nothing while at non-zero alpha it draws the
palette color. -/
theorem palette_blend_semantics_witness :
    (paletteEntry [0, 0, 0, 0, 255, 0, 0, 255] 16711935 0).2 =
      [0, 0, 0, 0, 255, 0, 0, 255].getD 7 0 ∧
    ((paletteEntry [0, 0, 0, 0, 255, 0, 0, 255] 16711935 0).1 =
       (paletteEntry [0, 0, 0, 0, 255, 0, 0, 255] 0 0).1 ∧
     (paletteEntry [0, 0, 0, 0, 255, 0, 0, 255] 16711935 0).1 =
       (([0, 0, 0, 0, 255, 0, 0, 255].getD 4 0) <<< 16) |||
         (([0, 0, 0, 0, 255, 0, 0, 255].getD 5 0) <<< 8) |||
         [0, 0, 0, 0, 255, 0, 0, 255].getD 6 0) ∧
    (pixelStep (fun _ => 0) (fun _ => 7) 2 0 0 5 (0, 0)).2 = [] ∧
    (pixelStep (fun _ => 9) (fun _ => 7) 2 0 0 5 (0, 0)).2 =
      [⟨((0 : Nat) : Int) + 0, ((0 : Nat) : Int) + 0, (fun _ => 7) 5⟩] :=
  ⟨(palette_blend_semantics.1 [0, 0, 0, 0, 255, 0, 0, 255] 16711935 0 (by decide)).2,
   palette_blend_semantics.2.1 [0, 0, 0, 0, 255, 0, 0, 255] 16711935 0 0 (by decide),
   palette_blend_semantics.2.2.1 (fun _ => 0) (fun _ => 7) 2 0 0 5 (0, 0) (by decide),
   palette_blend_semantics.2.2.2.1 (fun _ => 9) (fun _ => 7) 2 0 0 5 (0, 0) (by decide)⟩

/-- C9: the three failure conditions of `Brain::draw_image` — SD card
absent, file missing, file shorter than the 4-byte header plus 1024-byte
palette — each return immediately with their own fixed on-screen error
message, emit no pixel draw whatsoever, and close the file exactly when
it was opened; the three messages are pairwise distinct; and on every
path (the embedding is a total function: no exception escapes) the file
is closed if and only if it was opened. -/
theorem draw_image_error_paths :
    (∀ (file : Option (List Nat)) (x y : Int) (bg oe : Nat),
       draw_image false file x y bg oe =
         ⟨some "SD Card not found!", [], false, false⟩) ∧
    (∀ (x y : Int) (bg oe : Nat),
       draw_image true none x y bg oe =
         ⟨some "File not found!", [], false, false⟩) ∧
    (∀ (bytes : List Nat) (x y : Int) (bg oe : Nat),
       bytes.length < 4 + 1024 →
       draw_image true (some bytes) x y bg oe =
         ⟨some "Invalid image file!", [], true, true⟩) ∧
    ("SD Card not found!" ≠ "File not found!" ∧
     "SD Card not found!" ≠ "Invalid image file!" ∧
     "File not found!" ≠ "Invalid image file!") ∧
    (∀ (sd : Bool) (file : Option (List Nat)) (x y : Int) (bg oe : Nat),
       (draw_image sd file x y bg oe).closed =
         (draw_image sd file x y bg oe).opened) := by
  refine ⟨?_, ?_, ?_, by refine ⟨by decide, by decide, by decide⟩, ?_⟩
  · intro file x y bg oe
    rfl
  · intro x y bg oe
    rfl
  · intro bytes x y bg oe hlen
    have hmin : min 2048 bytes.length < 4 + 1024 := by omega
    simp [draw_image, hmin]
  · intro sd file x y bg oe
    cases sd with
    | false => rfl
    | true =>
      cases file with
      | none => rfl
      | some bytes =>
        simp only [draw_image]
        by_cases hmin : min 2048 bytes.length < 4 + 1024
        · simp [hmin]
        · simp [hmin]

/-- C9 witness: a 4-byte file (too short for header plus palette) aborts
with the invalid-file message, draws nothing, and closes the opened
file. -/
theorem draw_image_error_paths_witness :
    draw_image true (some [0, 1, 0, 1]) 0 0 0 0 =
      ⟨some "Invalid image file!", [], true, true⟩ :=
  draw_image_error_paths.2.2.1 [0, 1, 0, 1] 0 0 0 0 (by decide)

end Adlib
